import Mathlib

set_option autoImplicit false

namespace Pyra

/-!
Shallow embedding of the Pyra framework's production matcher, cache-header
derivation, API method dispatch, build-manifest assembly, prerender pass and
build-report size formatter, translated from the repository source
(prod-server and build-orchestrator modules).  JavaScript mutable objects are
modelled by explicit state threading; JavaScript `Map`s and plain objects by
association lists with replace-or-append update.
-/

-- ─── Generic association-list and string helpers ─────────────────────────────

/-- Association-list lookup; embeds `Map.get` / JS property access
(keys are unique in all uses, so first-match lookup is exact). -/
def alookup {α : Type} : List (String × α) → String → Option α
  | [], _ => none
  | (k, v) :: rest, key => if k = key then some v else alookup rest key

/-- Association-list update; embeds `Map.set` / JS property assignment:
replace the value at an existing key, else append at the end. -/
def aset {α : Type} : List (String × α) → String → α → List (String × α)
  | [], key, v => [(key, v)]
  | (k, w) :: rest, key, v =>
    if k = key then (key, v) :: rest else (k, w) :: aset rest key v

/-- Association-list key removal; embeds the JS `delete obj[key]` statement. -/
def aerase {α : Type} : List (String × α) → String → List (String × α)
  | [], _ => []
  | (k, w) :: rest, key =>
    if k = key then aerase rest key else (k, w) :: aerase rest key

/-- Embeds `Array.prototype.join(sep)`. -/
def joinWith (sep : String) : List String → String
  | [] => ""
  | [s] => s
  | s :: rest => s ++ sep ++ joinWith sep rest

/-- Embeds `String.prototype.split` with a single-character separator. -/
def splitChar (sep : Char) : List Char → List (List Char)
  | [] => [[]]
  | c :: rest =>
    let r := splitChar sep rest
    if c = sep then [] :: r
    else
      match r with
      | [] => [[c]]
      | g :: gs => (c :: g) :: gs

/-- Embeds `value.endsWith("/")` (a one-character suffix check). -/
def strEndsWithSlash (s : String) : Bool :=
  s.data.getLast? == some '/'

/-- Embeds `value.slice(0, -1)` (drop the final character). -/
def dropLastChar (s : String) : String :=
  ⟨s.data.dropLast⟩

/-- Embeds `String.prototype.toUpperCase` (character-wise upper-casing). -/
def toUpperCase (s : String) : String :=
  ⟨s.data.map Char.toUpper⟩

/-- Embeds `segment.startsWith(c)` for a one-character prefix. -/
def startsWithChar (s : String) (c : Char) : Bool :=
  s.data.head? == some c

/-- Embeds `segment.slice(1)` (drop the first character). -/
def dropFirstChar (s : String) : String :=
  ⟨s.data.tail⟩

-- ─── Manifest data model (pyrajs-shared types used by the matcher) ───────────

/-- CacheConfig from pyrajs-shared: optional maxAge / sMaxAge /
staleWhileRevalidate numbers exported by a page. -/
structure CacheConfig where
  maxAge : Option Nat := none
  sMaxAge : Option Nat := none
  staleWhileRevalidate : Option Nat := none
  deriving DecidableEq, Repr

/-- The `type` field of a manifest route entry. -/
inductive RouteType where
  | page
  | api
  deriving DecidableEq, Repr

/-- ManifestRouteEntry: the production-persisted description of one route,
with the fields the claims exercise. -/
structure ManifestRouteEntry where
  id : String
  pattern : String
  rtype : RouteType
  methods : Option (List String) := none
  serverEntry : Option String := none
  hasLoad : Bool := false
  cache : Option CacheConfig := none
  prerendered : Bool := false
  prerenderedFile : Option String := none
  prerenderedCount : Option Nat := none
  middleware : Option (List String) := none
  deriving DecidableEq, Repr

/-- Parameter bindings collected during matching (the JS `params` object). -/
abbrev Params := List (String × String)

-- ─── Production matcher (prod-server buildMatcher / matchSegments) ───────────

/-- One node of the route trie (interface TrieNode). -/
inductive TrieNode where
  | node (staticChildren : List (String × TrieNode))
         (dynamicChild : Option (String × TrieNode))
         (catchAllChild : Option (String × ManifestRouteEntry))
         (entry : Option ManifestRouteEntry)

def TrieNode.staticChildren : TrieNode → List (String × TrieNode)
  | .node sc _ _ _ => sc

def TrieNode.dynamicChild : TrieNode → Option (String × TrieNode)
  | .node _ dy _ _ => dy

def TrieNode.catchAllChild : TrieNode → Option (String × ManifestRouteEntry)
  | .node _ _ ca _ => ca

def TrieNode.entry : TrieNode → Option ManifestRouteEntry
  | .node _ _ _ en => en

/-- Embeds createTrieNode(). -/
def createTrieNode : TrieNode :=
  .node [] none none none

/-- Embeds splitSegments: strip one trailing slash (except the bare root),
split on slashes, keep non-empty segments. -/
def splitSegments (value : String) : List String :=
  if value = "/" then []
  else
    let normalized :=
      if strEndsWithSlash value && !(value == "/") then dropLastChar value else value
    ((splitChar '/' normalized.data).filter (fun g => g ≠ [])).map (fun g => ⟨g⟩)

/-- Embeds the per-route insertion loop inside buildMatcher: walk the pattern
segments from `current`, creating static/dynamic children, storing a
catch-all on the current node (and stopping), and marking the final node
terminal only for non-catch-all patterns. -/
def insertSegments : TrieNode → List String → ManifestRouteEntry → TrieNode
  | current, [], entry =>
    .node current.staticChildren current.dynamicChild current.catchAllChild (some entry)
  | current, seg :: rest, entry =>
    if startsWithChar seg '*' then
      .node current.staticChildren current.dynamicChild
        (some (dropFirstChar seg, entry)) current.entry
    else if startsWithChar seg ':' then
      match current.dynamicChild with
      | none =>
          .node current.staticChildren
            (some (dropFirstChar seg, insertSegments createTrieNode rest entry))
            current.catchAllChild current.entry
      | some (paramName, child) =>
          .node current.staticChildren
            (some (paramName, insertSegments child rest entry))
            current.catchAllChild current.entry
    else
      let child := (alookup current.staticChildren seg).getD createTrieNode
      .node (aset current.staticChildren seg (insertSegments child rest entry))
        current.dynamicChild current.catchAllChild current.entry

/-- Embeds buildMatcher's trie construction over all manifest route entries. -/
def buildMatcher (routes : List ManifestRouteEntry) : TrieNode :=
  routes.foldl (fun root e => insertSegments root (splitSegments e.pattern) e)
    createTrieNode

/-- Embeds matchSegments: static child first, then dynamic child (bind the
segment, recurse, delete the binding on failure), then the catch-all child
(bind the remaining segments joined by slashes).  The mutable `params`
object is threaded explicitly: the second component is the state of
`params` after the call, also on failure. -/
def matchSegments : TrieNode → List String → Params → Option ManifestRouteEntry × Params
  | node, [], params => (node.entry, params)
  | node, seg :: rest, params =>
    match (match alookup node.staticChildren seg with
           | some child => matchSegments child rest params
           | none => (none, params)) with
    | (some e, p) => (some e, p)
    | (none, p1) =>
      match (match node.dynamicChild with
             | some pd =>
               match matchSegments pd.2 rest (aset p1 pd.1 seg) with
               | (some e, p3) => (some e, p3)
               | (none, p3) => (none, aerase p3 pd.1)
             | none => (none, p1)) with
      | (some e, p) => (some e, p)
      | (none, p4) =>
        match node.catchAllChild with
        | some pc => (some pc.2, aset p4 pc.1 (joinWith ("/") (seg :: rest)))
        | none => (none, p4)

/-- Embeds the `match(pathname)` closure returned by buildMatcher. -/
def matcherMatch (routes : List ManifestRouteEntry) (pathname : String) :
    Option (ManifestRouteEntry × Params) :=
  match matchSegments (buildMatcher routes) (splitSegments pathname) [] with
  | (some entry, params) => some (entry, params)
  | (none, _) => none

/-- A pattern contains a catch-all segment (one starting with an asterisk). -/
def hasCatchAllSeg (pattern : String) : Bool :=
  (splitSegments pattern).any (fun s => startsWithChar s '*')

-- ─── Cache-Control header derivation (prod-server buildCacheControlHeader) ───

/-- Embeds buildCacheControlHeader: start from "public", append a directive
for each defined CacheConfig field, return "no-cache" for an absent config
or when no directive was appended. -/
def buildCacheControlHeader (cache : Option CacheConfig) : String :=
  match cache with
  | none => "no-cache"
  | some c =>
    let parts : List String := ["public"]
    let parts := match c.maxAge with
      | some n => parts ++ ["max-age=" ++ toString n]
      | none => parts
    let parts := match c.sMaxAge with
      | some n => parts ++ ["s-maxage=" ++ toString n]
      | none => parts
    let parts := match c.staleWhileRevalidate with
      | some n => parts ++ ["stale-while-revalidate=" ++ toString n]
      | none => parts
    if parts.length = 1 then "no-cache" else joinWith (", ") parts

/-- Spec-side restatement for claim C4: the list of directives for exactly
the fields present, in max-age, s-maxage, stale-while-revalidate order. -/
def cacheDirectives (c : CacheConfig) : List String :=
  (match c.maxAge with | some n => ["max-age=" ++ toString n] | none => []) ++
  (match c.sMaxAge with | some n => ["s-maxage=" ++ toString n] | none => []) ++
  (match c.staleWhileRevalidate with
    | some n => ["stale-while-revalidate=" ++ toString n] | none => [])

-- ─── API routes: build-time method detection and runtime dispatch ────────────

/-- Modelled from the spec: the HTTP_METHODS constant of pyrajs-shared (whose
source file is not part of the provided sources) — the recognized method
export names GET, POST, PUT, DELETE, PATCH, HEAD, OPTIONS. -/
def HTTP_METHODS : List String :=
  ["GET", "POST", "PUT", "DELETE", "PATCH", "HEAD", "OPTIONS"]

/-- Embeds the build orchestrator's export-detection step for API routes:
keep exactly the export names that are recognized HTTP methods. -/
def detectApiMethods (exports : List String) : List String :=
  exports.filter (fun e => HTTP_METHODS.contains e)

/-- Embeds the apiMethodsMap handling: the map entry is set only when the
filtered method list is non-empty, so a route with no recognized method
export gets no `methods` field in its manifest entry. -/
def recordedApiMethods (exports : List String) : Option (List String) :=
  let methods := detectApiMethods exports
  if methods.length > 0 then some methods else none

/-- A JS value exported from a compiled server module: either a function
(a request handler) or a non-function value. -/
inductive ExportVal (req resp : Type) where
  | handler (h : req → resp)
  | value

/-- The incoming request as seen by handleApiRouteInner: `req.method` may be
absent, in which case the code defaults to GET. -/
structure ApiRequest where
  method : Option String

/-- A Web Response as far as the API-dispatch claims observe it. -/
structure ApiResponse where
  status : Nat
  headers : List (String × String)
  body : String
  deriving DecidableEq

/-- A compiled API server module: its named exports. -/
abbrev ApiModule := List (String × ExportVal ApiRequest ApiResponse)

/-- Header lookup on a response. -/
def headerValue (resp : ApiResponse) (name : String) : Option String :=
  alookup resp.headers name

/-- Embeds handleApiRouteInner: upper-case the request method (default GET);
405 with an Allow header when the method is not among the entry's recorded
methods; 500 when the manifest entry has no server bundle or the module
does not export the method as a function; otherwise dispatch to the
exported handler.  The imported module is passed in explicitly. -/
def handleApiRouteInner (entry : ManifestRouteEntry) (mod : ApiModule)
    (req : ApiRequest) : ApiResponse :=
  let method := toUpperCase (req.method.getD ("GET"))
  let allowedMethods := entry.methods.getD []
  if !(allowedMethods.contains method) then
    { status := 405
      headers := [("Content-Type", "application/json"),
                  ("Allow", joinWith (", ") allowedMethods)]
      body := "Method " ++ method ++ " not allowed" }
  else
    match entry.serverEntry with
    | none =>
      { status := 500
        headers := [("Content-Type", "text/plain")]
        body := "API route " ++ entry.id ++ " has no server entry in the manifest." }
    | some _ =>
      match alookup mod method with
      | some (.handler h) => h req
      | _ =>
        { status := 500
          headers := [("Content-Type", "text/plain")]
          body := "API route " ++ entry.id ++ " does not export a " ++
                  method ++ " handler." }

-- ─── Manifest assembly for API routes (build assembleManifest) ───────────────

/-- A scanned route as the router hands it to the build orchestrator. -/
structure RouteNode where
  id : String
  pattern : String
  middlewarePaths : List String := []
  deriving DecidableEq, Repr

/-- Embeds the API-route loop of assembleManifest: every route from
router.apiRoutes() gets a manifest entry, with `methods` and `serverEntry`
looked up in the maps built earlier (absent when not recorded). -/
def assembleApiRoutes (apiRoutes : List RouteNode)
    (serverOutputMap : List (String × String))
    (apiMethodsMap : List (String × List String)) :
    List (String × ManifestRouteEntry) :=
  apiRoutes.map (fun route =>
    (route.id,
      { id := route.id
        pattern := route.pattern
        rtype := .api
        serverEntry := alookup serverOutputMap route.id
        methods := alookup apiMethodsMap route.id
        middleware := if route.middlewarePaths.length ≠ 0
          then some route.middlewarePaths else none }))

-- ─── Prerendering pass (build orchestrator step 9) ───────────────────────────

/-- The value of a page's prerender export after the build's validation:
`true`, or a config object whose paths() enumerates parameter sets. -/
inductive PrerenderConfig where
  | simple
  | withPaths (paths : List Params)

/-- What a page's load() returns: a Response (the page is skipped) or data. -/
inductive LoadResult where
  | response
  | data
  deriving DecidableEq

/-- A compiled page server module as the prerender pass observes it: whether
a default export exists, and the load export if it is a function. -/
structure PageModule where
  hasDefault : Bool
  load : Option (Params → LoadResult)

/-- Embeds `String.prototype.replace` with a plain-string pattern: replace
the first occurrence only. -/
def replaceFirst (s pat repl : String) : String :=
  match s.splitOn pat with
  | [] => s
  | [x] => x
  | x :: rest => x ++ repl ++ String.intercalate pat rest

/-- Embeds the pathname construction of the prerender loop: substitute each
parameter value for `:name` in the route pattern. -/
def substituteParams (pattern : String) (params : Params) : String :=
  params.foldl (fun p kv => replaceFirst p (":" ++ kv.1) kv.2) pattern

/-- Embeds the output-path rule: the root URL maps to index.html, any other
URL to the URL without its leading slash followed by /index.html. -/
def htmlRelPathFor (pathname : String) : String :=
  if pathname = "/" then "index.html" else dropFirstChar pathname ++ "/index.html"

/-- Embeds the skip condition inside the prerender loop: the entry has a
load export, the module's load is a function, and calling it returns a
Response. -/
def pageSkipped (entry : ManifestRouteEntry) (mod : PageModule)
    (params : Params) : Bool :=
  entry.hasLoad &&
    (match mod.load with
     | some f => f params == .response
     | none => false)

/-- Embeds the per-parameter-set prerender loop, threading the mutated
manifest entry, the list of written HTML paths and renderedCount.
`fullLen` is paramSets.length, fixed before the loop. -/
def prerenderLoop (fullLen : Nat) (mod : PageModule) :
    ManifestRouteEntry × List String × Nat → List Params →
    ManifestRouteEntry × List String × Nat
  | acc, [] => acc
  | (e, written, cnt), params :: rest =>
    let pathname := substituteParams e.pattern params
    if pageSkipped e mod params then
      prerenderLoop fullLen mod (e, written, cnt) rest
    else
      let rel := htmlRelPathFor pathname
      let e1 := if fullLen = 1 then { e with prerenderedFile := some rel } else e
      prerenderLoop fullLen mod (e1, written ++ [rel], cnt + 1) rest

/-- The parameter sets a prerender config resolves to: `true` means a single
render with no params, a config object enumerates them via paths(). -/
def paramSetsOf (config : PrerenderConfig) : List Params :=
  match config with
  | .simple => [([] : Params)]
  | .withPaths ps => ps

/-- Embeds one route's prerender: skip the whole route (warning) when the
module has no default export; otherwise resolve the parameter sets, run
the loop, then set prerendered and, for a multi-page route,
prerenderedCount.  Returns the updated entry and the written HTML paths. -/
def prerenderRoute (entry : ManifestRouteEntry) (mod : PageModule)
    (config : PrerenderConfig) : ManifestRouteEntry × List String :=
  if !mod.hasDefault then (entry, [])
  else
    let paramSets := paramSetsOf config
    let r := prerenderLoop paramSets.length mod (entry, [], 0) paramSets
    let e1 := { r.1 with prerendered := true }
    let e2 := if paramSets.length > 1
      then { e1 with prerenderedCount := some r.2.2 } else e1
    (e2, r.2.1)

/-- Embeds the route-level prerender pass: each prerendered route is
processed independently, in order. -/
def prerenderPass
    (routes : List (ManifestRouteEntry × PageModule × PrerenderConfig)) :
    List (ManifestRouteEntry × List String) :=
  routes.map (fun r => prerenderRoute r.1 r.2.1 r.2.2)

-- ─── Build report size formatting (formatSize) ───────────────────────────────

/-- Embeds `(bytes / 1024).toFixed(1)`.  For bytes below 2^53 the quotient
bytes / 1024 is an exact binary double, and toFixed(1) picks the integer n
closest to 10 times that value, preferring the larger n at a tie, so the
printed tenths are floor((20 * bytes + 1024) / 2048). -/
def toFixed1KB (bytes : Nat) : String :=
  let tenths := (20 * bytes + 1024) / 2048
  toString (tenths / 10) ++ "." ++ toString (tenths % 10)

/-- Embeds formatSize: a dash for exactly 0 bytes, the raw byte count below
1024 bytes (kb < 1 iff bytes < 1024), otherwise kilobytes with one
decimal place. -/
def formatSize (bytes : Nat) : String :=
  if bytes = 0 then "-"
  else if bytes < 1024 then toString bytes ++ " B"
  else toFixed1KB bytes ++ " KB"

-- ─── Trie invariants used to reason about the matcher ────────────────────────

/-- Depth invariant of the route trie: a terminal entry stored at depth d has
exactly d pattern segments, and a catch-all child always stores an entry
whose pattern contains a catch-all segment. -/
inductive EntryDepthInv : TrieNode → Nat → Prop where
  | mk (sc : List (String × TrieNode)) (dy : Option (String × TrieNode))
      (ca : Option (String × ManifestRouteEntry)) (en : Option ManifestRouteEntry)
      (d : Nat)
      (hEntry : ∀ e, en = some e → (splitSegments e.pattern).length = d)
      (hStatic : ∀ p, p ∈ sc → EntryDepthInv p.2 (d + 1))
      (hDyn : ∀ pn n, dy = some (pn, n) → EntryDepthInv n (d + 1))
      (hCatch : ∀ pn e, ca = some (pn, e) → hasCatchAllSeg e.pattern = true) :
      EntryDepthInv (.node sc dy ca en) d

/-- A trie with no terminal entry anywhere (catch-all children may exist). -/
inductive NoEntry : TrieNode → Prop where
  | mk (sc : List (String × TrieNode)) (dy : Option (String × TrieNode))
      (ca : Option (String × ManifestRouteEntry)) (en : Option ManifestRouteEntry)
      (hEn : en = none)
      (hStatic : ∀ p, p ∈ sc → NoEntry p.2)
      (hDyn : ∀ pn n, dy = some (pn, n) → NoEntry n) :
      NoEntry (.node sc dy ca en)

-- ─── Concrete fixtures used by witnesses and counterexamples ─────────────────

/-- A static page route at /about. -/
def aboutEntry : ManifestRouteEntry :=
  { id := "/about", pattern := "/about", rtype := .page }

/-- A dynamic page route at /blog/[slug]. -/
def blogEntry : ManifestRouteEntry :=
  { id := "/blog/[slug]", pattern := "/blog/:slug", rtype := .page }

/-- A catch-all page route at /docs/[...path]. -/
def docsAllEntry : ManifestRouteEntry :=
  { id := "/docs/[...path]", pattern := "/docs/*path", rtype := .page }

/-- A 200 handler used as a concrete GET export. -/
def okHandler : ApiRequest → ApiResponse :=
  fun _ => { status := 200, headers := [], body := "ok" }

/-- A concrete API module exporting GET (a handler) and a helper value. -/
def getOnlyModule : ApiModule :=
  [("GET", .handler okHandler), ("helper", .value)]

/-- The manifest entry the build produces for getOnlyModule. -/
def getOnlyEntry : ManifestRouteEntry :=
  { id := "/api/items", pattern := "/api/items", rtype := .api,
    methods := recordedApiMethods (getOnlyModule.map Prod.fst),
    serverEntry := some ("api__items.js") }

/-- A concrete API module whose only export is not a recognized method. -/
def noMethodModule : ApiModule :=
  [("helper", .value)]

/-- The scanned route backing noMethodModule. -/
def noMethodRoute : RouteNode :=
  { id := "/api/empty", pattern := "/api/empty" }

/-- The manifest entry assembleManifest produces for noMethodRoute when the
apiMethodsMap holds nothing for it. -/
def noMethodEntry : ManifestRouteEntry :=
  { id := "/api/empty", pattern := "/api/empty", rtype := .api,
    methods := alookup [] ("/api/empty"),
    serverEntry := some ("api__empty.js") }

/-- A dynamic page route at /posts/[slug] with a load export. -/
def postsEntry : ManifestRouteEntry :=
  { id := "/posts/[slug]", pattern := "/posts/:slug", rtype := .page,
    hasLoad := true }

/-- A page module whose load returns a Response (redirect) exactly for the
slug b, and data otherwise. -/
def postsModule : PageModule :=
  { hasDefault := true,
    load := some (fun ps => if alookup ps ("slug") == some ("b")
      then .response else .data) }

/-- A page module with no default export. -/
def noDefaultModule : PageModule :=
  { hasDefault := false, load := none }

/-- A prerender config enumerating three slugs for postsEntry. -/
def postsPrerender : PrerenderConfig :=
  .withPaths [[("slug", "a")], [("slug", "b")], [("slug", "c")]]

/-- The root page route. -/
def homeEntry : ManifestRouteEntry :=
  { id := "/", pattern := "/", rtype := .page }

/-- A plain page module (default export, no load). -/
def homeModule : PageModule :=
  { hasDefault := true, load := none }

/-- A route whose dynamic first segment leads to a deeper static segment. -/
def dynDeepEntry : ManifestRouteEntry :=
  { id := "/[x]/only", pattern := "/:x/only", rtype := .page }

/-- A catch-all route at the root. -/
def rootCatchEntry : ManifestRouteEntry :=
  { id := "/[...rest]", pattern := "/*rest", rtype := .page }

/-- The trie for dynDeepEntry and rootCatchEntry together. -/
def c1Node : TrieNode :=
  buildMatcher [dynDeepEntry, rootCatchEntry]

/-- The dynamic child of c1Node (the subtree under the :x segment). -/
def c1DynChild : TrieNode :=
  insertSegments createTrieNode [("only" : String)] dynDeepEntry

-- ═══ Theorems ════════════════════════════════════════════════════════════════

-- ─── C1: matching order — static, then dynamic, then catch-all ───────────────

/-- Claim C1: at every trie node the matcher resolves the current segment by
trying the static child first, then the dynamic child, then the
catch-all.  A terminal static result is returned as is (a literal segment
outranks a parameter); when the static branch fails, a terminal dynamic
result is returned (a parameter outranks a catch-all); when the dynamic
branch reaches no terminal entry, its parameter binding is removed again
(backtracking) before the catch-all — if present — matches the remaining
segments. -/
theorem c1_match_priority (node : TrieNode) (seg : String) (rest : List String)
    (params : Params) :
    (∀ (child : TrieNode) (e : ManifestRouteEntry) (p2 : Params),
      alookup node.staticChildren seg = some child →
      matchSegments child rest params = (some e, p2) →
      matchSegments node (seg :: rest) params = (some e, p2)) ∧
    (∀ (p1 : Params) (pn : String) (dn : TrieNode) (e : ManifestRouteEntry)
        (p3 : Params),
      ((alookup node.staticChildren seg = none ∧ p1 = params) ∨
       (∃ child, alookup node.staticChildren seg = some child ∧
         matchSegments child rest params = (none, p1))) →
      node.dynamicChild = some (pn, dn) →
      matchSegments dn rest (aset p1 pn seg) = (some e, p3) →
      matchSegments node (seg :: rest) params = (some e, p3)) ∧
    (∀ (p1 : Params) (pn : String) (dn : TrieNode) (p3 : Params) (cn : String)
        (ce : ManifestRouteEntry),
      ((alookup node.staticChildren seg = none ∧ p1 = params) ∨
       (∃ child, alookup node.staticChildren seg = some child ∧
         matchSegments child rest params = (none, p1))) →
      node.dynamicChild = some (pn, dn) →
      matchSegments dn rest (aset p1 pn seg) = (none, p3) →
      node.catchAllChild = some (cn, ce) →
      matchSegments node (seg :: rest) params =
        (some ce, aset (aerase p3 pn) cn (joinWith ("/") (seg :: rest)))) ∧
    (∀ (p1 : Params) (cn : String) (ce : ManifestRouteEntry),
      ((alookup node.staticChildren seg = none ∧ p1 = params) ∨
       (∃ child, alookup node.staticChildren seg = some child ∧
         matchSegments child rest params = (none, p1))) →
      node.dynamicChild = none →
      node.catchAllChild = some (cn, ce) →
      matchSegments node (seg :: rest) params =
        (some ce, aset p1 cn (joinWith ("/") (seg :: rest)))) := by
  refine ⟨?_, ?_, ?_, ?_⟩
  · intro child e p2 hs hm
    simp only [matchSegments, hs, hm]
  · intro p1 pn dn e p3 hstat hd hm
    rcases hstat with ⟨hs, hp⟩ | ⟨child, hs, hm0⟩
    · subst hp
      simp only [matchSegments, hs, hd, hm]
    · simp only [matchSegments, hs, hm0, hd, hm]
  · intro p1 pn dn p3 cn ce hstat hd hm hca
    rcases hstat with ⟨hs, hp⟩ | ⟨child, hs, hm0⟩
    · subst hp
      simp only [matchSegments, hs, hd, hm, hca]
    · simp only [matchSegments, hs, hm0, hd, hm, hca]
  · intro p1 cn ce hstat hd hca
    rcases hstat with ⟨hs, hp⟩ | ⟨child, hs, hm0⟩
    · subst hp
      simp only [matchSegments, hs, hd, hca]
    · simp only [matchSegments, hs, hm0, hd, hca]

/-- Claim C1 witness: a static match is returned directly, and a failing
dynamic branch has its binding removed before the root catch-all matches. -/
theorem c1_match_priority_witness :
    matchSegments (buildMatcher [aboutEntry]) [("about" : String)] [] =
      (some aboutEntry, []) ∧
    matchSegments c1Node [("a" : String)] [] =
      (some rootCatchEntry,
        aset (aerase [(("x" : String), ("a" : String))] ("x")) ("rest")
          (joinWith ("/") [("a" : String)])) :=
  ⟨(c1_match_priority (buildMatcher [aboutEntry]) ("about") [] []).1
      (insertSegments createTrieNode [] aboutEntry) aboutEntry [] rfl rfl,
   (c1_match_priority c1Node ("a") [] []).2.2.1 [] ("x") c1DynChild
      [(("x" : String), ("a" : String))] ("rest") rootCatchEntry
      (Or.inl ⟨rfl, rfl⟩) rfl rfl rfl⟩

-- ─── Shared association-list lemmas ──────────────────────────────────────────

/-- Members after an aset update: the new pair or an old member. -/
theorem aset_mem {α : Type} (l : List (String × α)) (k : String) (v : α) :
    ∀ p ∈ aset l k v, p = (k, v) ∨ p ∈ l := by
  induction l with
  | nil =>
    intro p hp
    simp [aset] at hp
    exact Or.inl hp
  | cons q rest ih =>
    intro p hp
    unfold aset at hp
    by_cases h : q.1 = k
    · rw [if_pos h] at hp
      rcases List.mem_cons.mp hp with hp | hp
      · exact Or.inl hp
      · exact Or.inr (List.mem_cons_of_mem q hp)
    · rw [if_neg h] at hp
      rcases List.mem_cons.mp hp with hp | hp
      · exact Or.inr (by simp [hp])
      · rcases ih p hp with hh | hh
        · exact Or.inl hh
        · exact Or.inr (List.mem_cons_of_mem q hh)

/-- Members surviving an aerase are old members. -/
theorem aerase_mem {α : Type} (l : List (String × α)) (k : String) :
    ∀ p ∈ aerase l k, p ∈ l := by
  induction l with
  | nil =>
    intro p hp
    simp [aerase] at hp
  | cons q rest ih =>
    intro p hp
    unfold aerase at hp
    by_cases h : q.1 = k
    · rw [if_pos h] at hp
      exact List.mem_cons_of_mem q (ih p hp)
    · rw [if_neg h] at hp
      rcases List.mem_cons.mp hp with hp | hp
      · simp [hp]
      · exact List.mem_cons_of_mem q (ih p hp)

/-- A successful alookup returns a member of the list. -/
theorem alookup_mem {α : Type} (l : List (String × α)) (k : String) (v : α) :
    alookup l k = some v → (k, v) ∈ l := by
  induction l with
  | nil => intro h; simp [alookup] at h
  | cons q rest ih =>
    intro h
    unfold alookup at h
    by_cases hq : q.1 = k
    · rw [if_pos hq] at h
      injection h with h2
      subst h2
      have hqe : (k, q.2) = q := by
        cases q
        simp at hq
        simp [hq]
      rw [hqe]
      exact List.mem_cons_self q rest
    · rw [if_neg hq] at h
      exact List.mem_cons_of_mem q (ih h)

-- ─── C3: input normalization and trailing-slash idempotence ──────────────────

/-- The JS split never produces an empty group list. -/
theorem splitChar_ne_nil (sep : Char) (l : List Char) : splitChar sep l ≠ [] := by
  induction l with
  | nil => simp [splitChar]
  | cons c rest ih =>
    unfold splitChar
    by_cases h : c = sep
    · simp [h]
    · simp only [h, if_false]
      cases hr : splitChar sep rest with
      | nil => simp
      | cons g gs => simp

/-- Splitting after appending one separator appends one empty group. -/
theorem splitChar_append_sep (sep : Char) (xs : List Char) :
    splitChar sep (xs ++ [sep]) = splitChar sep xs ++ [[]] := by
  induction xs with
  | nil => simp [splitChar]
  | cons c rest ih =>
    by_cases h : c = sep
    · simp [splitChar, h, ih]
    · have hne := splitChar_ne_nil sep rest
      cases hr : splitChar sep rest with
      | nil => exact absurd hr hne
      | cons g gs => simp [splitChar, h, ih, hr]

/-- String append acts as list append on the character data. -/
theorem string_data_append (a b : String) : (a ++ b).data = a.data ++ b.data :=
  rfl

/-- Appending a slash yields the bare root exactly for the empty string. -/
theorem append_slash_eq_root (v : String) : v ++ "/" = "/" ↔ v = "" := by
  constructor
  · intro h
    have hd : v.data ++ ['/'] = ['/'] := by
      have := congrArg String.data h
      simpa [string_data_append] using this
    have hlen := congrArg List.length hd
    simp at hlen
    cases v with
    | mk l =>
      simp at hlen
      subst hlen
      rfl
  · intro h
    subst h
    rfl

/-- A list whose last element is c is its dropLast extended by c. -/
theorem dropLast_append_getLast? (l : List Char) (c : Char)
    (h : l.getLast? = some c) : l.dropLast ++ [c] = l := by
  induction l with
  | nil => simp at h
  | cons a t ih =>
    cases t with
    | nil =>
      simp at h
      simp [h]
    | cons b u =>
      have h' : (b :: u).getLast? = some c := by
        rw [List.getLast?_cons_cons] at h
        exact h
      have := ih h'
      simp only [List.dropLast_cons_of_ne_nil (by simp : (b :: u) ≠ [])]
      rw [List.cons_append, this]

/-- Every segment produced by splitSegments is non-empty (the split filters
out empty strings). -/
theorem splitSegments_mem_ne_empty (v : String) :
    ∀ s ∈ splitSegments v, s ≠ "" := by
  intro s hs
  unfold splitSegments at hs
  split at hs
  · simp at hs
  · simp only [List.mem_map, List.mem_filter] at hs
    obtain ⟨g, ⟨hg, hgne⟩, rfl⟩ := hs
    have hgne' : g ≠ [] := by simpa using hgne
    intro hcontra
    exact hgne' (congrArg String.data hcontra)

/-- Claim C3: splitSegments strips one trailing slash (except the bare root)
and keeps only non-empty segments, so appending a slash to any path never
changes its segments, and for every matcher and every path the match result
for P plus a trailing slash equals the match result for P. -/
theorem c3_trailing_slash_idempotence :
    (∀ v : String, splitSegments (v ++ "/") = splitSegments v) ∧
    (∀ v : String, (splitSegments v).all (fun s => !(s == "")) = true) ∧
    (∀ (routes : List ManifestRouteEntry) (P : String),
      matcherMatch routes (P ++ "/") = matcherMatch routes P) := by
  have hsplit : ∀ v : String, splitSegments (v ++ "/") = splitSegments v := by
    intro v
    by_cases hv0 : v = ""
    · subst hv0
      rfl
    · by_cases hvr : v = "/"
      · subst hvr
        rfl
      · have hne : ¬ v ++ "/" = "/" := fun h =>
          hv0 ((append_slash_eq_root v).mp h)
        have hdata : (v ++ "/").data = v.data ++ ['/'] := string_data_append v "/"
        have hends : strEndsWithSlash (v ++ "/") = true := by
          unfold strEndsWithSlash
          rw [hdata]
          simp
        have hdrop : dropLastChar (v ++ "/") = v := by
          unfold dropLastChar
          rw [hdata]
          simp
        have hbeq : (v ++ "/" == "/") = false := by
          simpa using hne
        conv =>
          lhs
          unfold splitSegments
        rw [if_neg hne]
        simp only [hends, hbeq, Bool.not_false, Bool.true_and, if_true, hdrop]
        by_cases hE : strEndsWithSlash v = true
        · have hlast : v.data.getLast? = some '/' := by
            unfold strEndsWithSlash at hE
            simpa using hE
          have hw : v.data.dropLast ++ ['/'] = v.data :=
            dropLast_append_getLast? v.data '/' hlast
          have hbeqv : (v == "/") = false := by
            simpa using hvr
          conv =>
            rhs
            unfold splitSegments
          rw [if_neg hvr]
          simp only [hE, hbeqv, Bool.not_false, Bool.true_and, if_true]
          unfold dropLastChar
          rw [← hw, splitChar_append_sep]
          simp [List.filter_append]
        · have hEf : strEndsWithSlash v = false := by
            cases hq : strEndsWithSlash v
            · rfl
            · exact absurd hq hE
          conv =>
            rhs
            unfold splitSegments
          rw [if_neg hvr]
          simp only [hEf, Bool.false_and, if_false]
          rfl
  refine ⟨hsplit, ?_, ?_⟩
  · intro v
    rw [List.all_eq_true]
    intro s hs
    simp only [Bool.not_eq_eq_eq_not, Bool.not_true, beq_eq_false_iff_ne]
    exact splitSegments_mem_ne_empty v s hs
  · intro routes P
    unfold matcherMatch
    rw [hsplit P]

end Pyra

namespace Pyra

-- ─── C2: exact segment-count matching ────────────────────────────────────────

/-- A fresh trie node satisfies the depth invariant at any depth. -/
theorem createTrieNode_inv (d : Nat) : EntryDepthInv createTrieNode d := by
  refine EntryDepthInv.mk [] none none none d ?_ ?_ ?_ ?_
  · intro e h
    simp at h
  · intro p hp
    simp at hp
  · intro pn n h
    simp at h
  · intro pn e h
    simp at h

/-- Inserting a route whose pattern splits as pre ++ segs, with the walk at
depth pre.length and no catch-all segment passed yet, preserves the depth
invariant. -/
theorem insertSegments_inv :
    ∀ (segs : List String) (node : TrieNode) (d : Nat) (e : ManifestRouteEntry)
      (pre : List String),
      EntryDepthInv node d →
      splitSegments e.pattern = pre ++ segs →
      pre.length = d →
      (∀ s ∈ pre, startsWithChar s '*' = false) →
      EntryDepthInv (insertSegments node segs e) d := by
  intro segs
  induction segs with
  | nil =>
    intro node d e pre hinv hsplit hlen _hpre
    obtain ⟨sc, dy, ca, en, d, hEntry, hStatic, hDyn, hCatch⟩ := hinv
    refine EntryDepthInv.mk sc dy ca (some e) d ?_ hStatic hDyn hCatch
    intro e1 he1
    cases he1
    rw [hsplit]
    simp [hlen]
  | cons seg rest ih =>
    intro node d e pre hinv hsplit hlen hpre
    obtain ⟨sc, dy, ca, en, d, hEntry, hStatic, hDyn, hCatch⟩ := hinv
    by_cases hstar : startsWithChar seg '*' = true
    · have hnode : insertSegments (.node sc dy ca en) (seg :: rest) e =
          .node sc dy (some (dropFirstChar seg, e)) en := by
        simp [insertSegments, hstar, TrieNode.staticChildren,
          TrieNode.dynamicChild, TrieNode.catchAllChild, TrieNode.entry]
      rw [hnode]
      refine EntryDepthInv.mk sc dy _ en d hEntry hStatic hDyn ?_
      intro pn e1 he1
      cases he1
      unfold hasCatchAllSeg
      rw [hsplit, List.any_eq_true]
      exact ⟨seg, by simp, hstar⟩
    · have hstar' : startsWithChar seg '*' = false := by
        cases hq : startsWithChar seg '*'
        · rfl
        · exact absurd hq hstar
      have hpre' : ∀ s ∈ pre ++ [seg], startsWithChar s '*' = false := by
        intro s hs
        rcases List.mem_append.mp hs with hs | hs
        · exact hpre s hs
        · simp at hs
          rw [hs]
          exact hstar'
      have hsplit' : splitSegments e.pattern = (pre ++ [seg]) ++ rest := by
        rw [hsplit]
        simp
      have hlen' : (pre ++ [seg]).length = d + 1 := by
        simp [hlen]
      by_cases hcolon : startsWithChar seg ':' = true
      · cases hdy : dy with
        | none =>
          have hnode : insertSegments (.node sc none ca en) (seg :: rest) e =
              .node sc (some (dropFirstChar seg,
                insertSegments createTrieNode rest e)) ca en := by
            simp [insertSegments, hstar', hcolon,
              TrieNode.staticChildren, TrieNode.dynamicChild,
              TrieNode.catchAllChild, TrieNode.entry]
          rw [hnode]
          refine EntryDepthInv.mk sc _ ca en d hEntry hStatic ?_ hCatch
          intro pn n hn
          cases hn
          exact ih createTrieNode (d + 1) e (pre ++ [seg])
            (createTrieNode_inv (d + 1)) hsplit' hlen' hpre'
        | some pd =>
          obtain ⟨pn0, child0⟩ := pd
          have hnode : insertSegments (.node sc (some (pn0, child0)) ca en)
                (seg :: rest) e =
              .node sc (some (pn0, insertSegments child0 rest e)) ca en := by
            simp [insertSegments, hstar', hcolon,
              TrieNode.staticChildren, TrieNode.dynamicChild,
              TrieNode.catchAllChild, TrieNode.entry]
          rw [hnode]
          refine EntryDepthInv.mk sc _ ca en d hEntry hStatic ?_ hCatch
          intro pn n hn
          cases hn
          refine ih child0 (d + 1) e (pre ++ [seg]) ?_ hsplit' hlen' hpre'
          exact hDyn pn0 child0 hdy
      · have hcolon' : startsWithChar seg ':' = false := by
          cases hq : startsWithChar seg ':'
          · rfl
          · exact absurd hq hcolon
        have hnode : insertSegments (.node sc dy ca en) (seg :: rest) e =
            .node (aset sc seg (insertSegments
              ((alookup sc seg).getD createTrieNode) rest e)) dy ca en := by
          simp [insertSegments, hstar', hcolon',
            TrieNode.staticChildren, TrieNode.dynamicChild,
            TrieNode.catchAllChild, TrieNode.entry]
        rw [hnode]
        refine EntryDepthInv.mk _ dy ca en d hEntry ?_ hDyn hCatch
        intro p hp
        rcases aset_mem sc seg _ p hp with hp | hp
        · rw [hp]
          refine ih ((alookup sc seg).getD createTrieNode) (d + 1) e
            (pre ++ [seg]) ?_ hsplit' hlen' hpre'
          cases hlk : alookup sc seg with
          | none => simpa using createTrieNode_inv (d + 1)
          | some c =>
            have := hStatic (seg, c) (alookup_mem sc seg c hlk)
            simpa using this
        · exact hStatic p hp

/-- The matcher trie built from any route list satisfies the depth invariant
at the root. -/
theorem buildMatcher_inv (routes : List ManifestRouteEntry) :
    EntryDepthInv (buildMatcher routes) 0 := by
  have hgen : ∀ (rs : List ManifestRouteEntry) (node : TrieNode),
      EntryDepthInv node 0 →
      EntryDepthInv (rs.foldl
        (fun root e => insertSegments root (splitSegments e.pattern) e) node) 0 := by
    intro rs
    induction rs with
    | nil => intro node h; exact h
    | cons e rest ih =>
      intro node h
      simp only [List.foldl_cons]
      refine ih _ ?_
      refine insertSegments_inv (splitSegments e.pattern) node 0 e [] h rfl rfl ?_
      intro s hs
      simp at hs
  exact hgen routes createTrieNode (createTrieNode_inv 0)

/-- In a trie satisfying the depth invariant at depth d, a successful match
of a non-catch-all entry consumes exactly the remaining pattern segments. -/
theorem matchSegments_length :
    ∀ (segs : List String) (node : TrieNode) (d : Nat) (params : Params)
      (e : ManifestRouteEntry) (p2 : Params),
      EntryDepthInv node d →
      matchSegments node segs params = (some e, p2) →
      hasCatchAllSeg e.pattern = false →
      d + segs.length = (splitSegments e.pattern).length := by
  intro segs
  induction segs with
  | nil =>
    intro node d params e p2 hinv hm hcf
    obtain ⟨sc, dy, ca, en, d, hEntry, hStatic, hDyn, hCatch⟩ := hinv
    simp only [matchSegments, TrieNode.entry] at hm
    cases hm
    simp [hEntry e rfl]
  | cons seg rest ih =>
    intro node d params e p2 hinv hm hcf
    obtain ⟨sc, dy, ca, en, d, hEntry, hStatic, hDyn, hCatch⟩ := hinv
    have hlen : ∀ (child : TrieNode) (ps : Params),
        alookup sc seg = some child →
        matchSegments child rest ps = (some e, p2) →
        d + (seg :: rest).length = (splitSegments e.pattern).length := by
      intro child ps hlk hmc
      have hchild := hStatic (seg, child) (alookup_mem sc seg child hlk)
      have := ih child (d + 1) ps e p2 (by simpa using hchild) hmc hcf
      simp only [List.length_cons]
      omega
    have hdynlen : ∀ (pn : String) (dn : TrieNode) (ps : Params),
        dy = some (pn, dn) →
        matchSegments dn rest ps = (some e, p2) →
        d + (seg :: rest).length = (splitSegments e.pattern).length := by
      intro pn dn ps hdy hmc
      have hchild := hDyn pn dn hdy
      have := ih dn (d + 1) ps e p2 hchild hmc hcf
      simp only [List.length_cons]
      omega
    cases hlk : alookup sc seg with
    | some child =>
      cases hmc : matchSegments child rest params with
      | mk r1 q1 =>
        cases r1 with
        | some e1 =>
          simp only [matchSegments, TrieNode.staticChildren,
            TrieNode.dynamicChild, TrieNode.catchAllChild, hlk, hmc] at hm
          cases hm
          exact hlen child params hlk hmc
        | none =>
          cases hdy : dy with
          | some pd =>
            obtain ⟨pn0, dn0⟩ := pd
            cases hmd : matchSegments dn0 rest (aset q1 pn0 seg) with
            | mk r2 q2 =>
              cases r2 with
              | some e2 =>
                simp only [matchSegments, TrieNode.staticChildren,
                  TrieNode.dynamicChild, TrieNode.catchAllChild, hlk, hmc,
                  hdy, hmd] at hm
                cases hm
                exact hdynlen pn0 dn0 (aset q1 pn0 seg) hdy hmd
              | none =>
                cases hca : ca with
                | some pc =>
                  simp only [matchSegments, TrieNode.staticChildren,
                    TrieNode.dynamicChild, TrieNode.catchAllChild, hlk, hmc,
                    hdy, hmd, hca] at hm
                  cases hm
                  rw [hCatch pc.1 pc.2 (by rw [hca])] at hcf
                  cases hcf
                | none =>
                  simp only [matchSegments, TrieNode.staticChildren,
                    TrieNode.dynamicChild, TrieNode.catchAllChild, hlk, hmc,
                    hdy, hmd, hca] at hm
                  cases hm
          | none =>
            cases hca : ca with
            | some pc =>
              simp only [matchSegments, TrieNode.staticChildren,
                TrieNode.dynamicChild, TrieNode.catchAllChild, hlk, hmc,
                hdy, hca] at hm
              cases hm
              rw [hCatch pc.1 pc.2 (by rw [hca])] at hcf
              cases hcf
            | none =>
              simp only [matchSegments, TrieNode.staticChildren,
                TrieNode.dynamicChild, TrieNode.catchAllChild, hlk, hmc,
                hdy, hca] at hm
              cases hm
    | none =>
      cases hdy : dy with
      | some pd =>
        obtain ⟨pn0, dn0⟩ := pd
        cases hmd : matchSegments dn0 rest (aset params pn0 seg) with
        | mk r2 q2 =>
          cases r2 with
          | some e2 =>
            simp only [matchSegments, TrieNode.staticChildren,
              TrieNode.dynamicChild, TrieNode.catchAllChild, hlk, hdy,
              hmd] at hm
            cases hm
            exact hdynlen pn0 dn0 (aset params pn0 seg) hdy hmd
          | none =>
            cases hca : ca with
            | some pc =>
              simp only [matchSegments, TrieNode.staticChildren,
                TrieNode.dynamicChild, TrieNode.catchAllChild, hlk, hdy,
                hmd, hca] at hm
              cases hm
              rw [hCatch pc.1 pc.2 (by rw [hca])] at hcf
              cases hcf
            | none =>
              simp only [matchSegments, TrieNode.staticChildren,
                TrieNode.dynamicChild, TrieNode.catchAllChild, hlk, hdy,
                hmd, hca] at hm
              cases hm
      | none =>
        cases hca : ca with
        | some pc =>
          simp only [matchSegments, TrieNode.staticChildren,
            TrieNode.dynamicChild, TrieNode.catchAllChild, hlk, hdy, hca] at hm
          cases hm
          rw [hCatch pc.1 pc.2 (by rw [hca])] at hcf
          cases hcf
        | none =>
          simp only [matchSegments, TrieNode.staticChildren,
            TrieNode.dynamicChild, TrieNode.catchAllChild, hlk, hdy, hca] at hm
          cases hm

/-- Claim C2: a route entry is returned only when the walk consumed exactly
all path segments, so a matched route whose pattern has no catch-all
segment has exactly as many pattern segments as the path has segments —
only a catch-all route can absorb extra trailing segments. -/
theorem c2_exact_segment_count (routes : List ManifestRouteEntry) (path : String)
    (e : ManifestRouteEntry) (ps : Params) :
    matcherMatch routes path = some (e, ps) →
    hasCatchAllSeg e.pattern = false →
    (splitSegments path).length = (splitSegments e.pattern).length := by
  intro hm hcf
  unfold matcherMatch at hm
  cases hres : matchSegments (buildMatcher routes) (splitSegments path) [] with
  | mk r q =>
    rw [hres] at hm
    cases r with
    | some e1 =>
      have hm2 : (e1, q) = (e, ps) := by
        have hsome : (some (e1, q) : Option (ManifestRouteEntry × Params)) =
            some (e, ps) := hm
        exact Option.some.inj hsome
      have he : e1 = e := congrArg Prod.fst hm2
      have hfin := matchSegments_length (splitSegments path)
        (buildMatcher routes) 0 [] e1 q (buildMatcher_inv routes) hres
        (by rw [he]; exact hcf)
      rw [he] at hfin
      omega
    | none => cases hm

/-- Claim C2 witness: the two-segment path blog/x matches the two-segment
dynamic pattern with equal segment counts. -/
theorem c2_exact_segment_count_witness :
    (splitSegments ("/blog/x")).length =
      (splitSegments blogEntry.pattern).length :=
  c2_exact_segment_count [aboutEntry, blogEntry] ("/blog/x") blogEntry
    [(("slug" : String), ("x" : String))] (by decide) (by decide)

-- ─── C10: a catch-all never matches its own base path ────────────────────────

/-- A fresh trie node stores no terminal entry. -/
theorem createTrieNode_noEntry : NoEntry createTrieNode := by
  refine NoEntry.mk [] none none none rfl ?_ ?_
  · intro p hp
    simp at hp
  · intro pn n h
    simp at h

/-- Inserting a pattern that contains a catch-all segment marks no node
terminal: the insertion stops at the catch-all and stores it on the
parent's catchAllChild only. -/
theorem insertSegments_noEntry :
    ∀ (segs : List String) (node : TrieNode) (e : ManifestRouteEntry),
      NoEntry node →
      segs.any (fun s => startsWithChar s '*') = true →
      NoEntry (insertSegments node segs e) := by
  intro segs
  induction segs with
  | nil =>
    intro node e hne hany
    simp at hany
  | cons seg rest ih =>
    intro node e hne hany
    obtain ⟨sc, dy, ca, en, hEn, hStatic, hDyn⟩ := hne
    by_cases hstar : startsWithChar seg '*' = true
    · have hnode : insertSegments (.node sc dy ca en) (seg :: rest) e =
          .node sc dy (some (dropFirstChar seg, e)) en := by
        simp [insertSegments, hstar, TrieNode.staticChildren,
          TrieNode.dynamicChild, TrieNode.catchAllChild, TrieNode.entry]
      rw [hnode]
      exact NoEntry.mk sc dy _ en hEn hStatic hDyn
    · have hstar' : startsWithChar seg '*' = false := by
        cases hq : startsWithChar seg '*'
        · rfl
        · exact absurd hq hstar
      have hany' : rest.any (fun s => startsWithChar s '*') = true := by
        simp only [List.any_cons, hstar', Bool.false_or] at hany
        exact hany
      by_cases hcolon : startsWithChar seg ':' = true
      · cases hdy : dy with
        | none =>
          have hnode : insertSegments (.node sc none ca en) (seg :: rest) e =
              .node sc (some (dropFirstChar seg,
                insertSegments createTrieNode rest e)) ca en := by
            simp [insertSegments, hstar', hcolon, TrieNode.staticChildren,
              TrieNode.dynamicChild, TrieNode.catchAllChild, TrieNode.entry]
          rw [hnode]
          refine NoEntry.mk sc _ ca en hEn hStatic ?_
          intro pn n hn
          cases hn
          exact ih createTrieNode e createTrieNode_noEntry hany'
        | some pd =>
          obtain ⟨pn0, dn0⟩ := pd
          have hnode : insertSegments (.node sc (some (pn0, dn0)) ca en)
                (seg :: rest) e =
              .node sc (some (pn0, insertSegments dn0 rest e)) ca en := by
            simp [insertSegments, hstar', hcolon, TrieNode.staticChildren,
              TrieNode.dynamicChild, TrieNode.catchAllChild, TrieNode.entry]
          rw [hnode]
          refine NoEntry.mk sc _ ca en hEn hStatic ?_
          intro pn n hn
          cases hn
          exact ih dn0 e (hDyn pn0 dn0 hdy) hany'
      · have hcolon' : startsWithChar seg ':' = false := by
          cases hq : startsWithChar seg ':'
          · rfl
          · exact absurd hq hcolon
        have hnode : insertSegments (.node sc dy ca en) (seg :: rest) e =
            .node (aset sc seg (insertSegments
              ((alookup sc seg).getD createTrieNode) rest e)) dy ca en := by
          simp [insertSegments, hstar', hcolon', TrieNode.staticChildren,
            TrieNode.dynamicChild, TrieNode.catchAllChild, TrieNode.entry]
        rw [hnode]
        refine NoEntry.mk _ dy ca en hEn ?_ hDyn
        intro p hp
        rcases aset_mem sc seg _ p hp with hp | hp
        · rw [hp]
          refine ih ((alookup sc seg).getD createTrieNode) e ?_ hany'
          cases hlk : alookup sc seg with
          | none => simpa using createTrieNode_noEntry
          | some c =>
            have := hStatic (seg, c) (alookup_mem sc seg c hlk)
            simpa using this
        · exact hStatic p hp

/-- In the trie of a single catch-all route, any successful match consumes
strictly more segments than the pattern's pre-catch-all prefix: the
catch-all branch is consulted only when at least one segment remains. -/
theorem singleCatchAll_match_length :
    ∀ (segs : List String) (e : ManifestRouteEntry) (input : List String)
      (params : Params),
      segs.any (fun s => startsWithChar s '*') = true →
      ((matchSegments (insertSegments createTrieNode segs e) input
        params).1).isSome = true →
      (segs.takeWhile (fun s => !(startsWithChar s '*'))).length <
        input.length := by
  intro segs
  induction segs with
  | nil =>
    intro e input params hany
    simp at hany
  | cons seg rest ih =>
    intro e input params hany hsome
    by_cases hstar : startsWithChar seg '*' = true
    · cases input with
      | nil =>
        have hnode : insertSegments createTrieNode (seg :: rest) e =
            .node [] none (some (dropFirstChar seg, e)) none := by
          simp [insertSegments, hstar, createTrieNode, TrieNode.staticChildren,
            TrieNode.dynamicChild, TrieNode.catchAllChild, TrieNode.entry]
        rw [hnode] at hsome
        simp [matchSegments, TrieNode.entry] at hsome
      | cons i it =>
        simp [List.takeWhile_cons, hstar]
    · have hstar' : startsWithChar seg '*' = false := by
        cases hq : startsWithChar seg '*'
        · rfl
        · exact absurd hq hstar
      have hany' : rest.any (fun s => startsWithChar s '*') = true := by
        simp only [List.any_cons, hstar', Bool.false_or] at hany
        exact hany
      by_cases hcolon : startsWithChar seg ':' = true
      · have hnode : insertSegments createTrieNode (seg :: rest) e =
            .node [] (some (dropFirstChar seg,
              insertSegments createTrieNode rest e)) none none := by
          simp [insertSegments, hstar', hcolon, createTrieNode,
            TrieNode.staticChildren, TrieNode.dynamicChild,
            TrieNode.catchAllChild, TrieNode.entry]
        rw [hnode] at hsome
        cases input with
        | nil =>
          simp [matchSegments, TrieNode.entry] at hsome
        | cons i it =>
          cases hmd : matchSegments (insertSegments createTrieNode rest e) it
              (aset params (dropFirstChar seg) i) with
          | mk r2 q2 =>
            cases r2 with
            | some e2 =>
              have hrec := ih e it (aset params (dropFirstChar seg) i) hany'
                (by rw [hmd]; rfl)
              simp only [List.takeWhile_cons, hstar', Bool.not_false,
                if_true, List.length_cons]
              omega
            | none =>
              simp [matchSegments, TrieNode.staticChildren,
                TrieNode.dynamicChild, TrieNode.catchAllChild, alookup,
                hmd] at hsome
      · have hcolon' : startsWithChar seg ':' = false := by
          cases hq : startsWithChar seg ':'
          · rfl
          · exact absurd hq hcolon
        have hnode : insertSegments createTrieNode (seg :: rest) e =
            .node [(seg, insertSegments createTrieNode rest e)]
              none none none := by
          simp [insertSegments, hstar', hcolon', createTrieNode, aset, alookup,
            TrieNode.staticChildren, TrieNode.dynamicChild,
            TrieNode.catchAllChild, TrieNode.entry]
        rw [hnode] at hsome
        cases input with
        | nil =>
          simp [matchSegments, TrieNode.entry] at hsome
        | cons i it =>
          by_cases heq : seg = i
          · cases hmc : matchSegments (insertSegments createTrieNode rest e)
                it params with
            | mk r1 q1 =>
              cases r1 with
              | some e1 =>
                have hrec := ih e it params hany' (by rw [hmc]; rfl)
                simp only [List.takeWhile_cons, hstar', Bool.not_false,
                  if_true, List.length_cons]
                omega
              | none =>
                simp [matchSegments, TrieNode.staticChildren,
                  TrieNode.dynamicChild, TrieNode.catchAllChild, alookup,
                  heq, hmc] at hsome
          · simp [matchSegments, TrieNode.staticChildren,
              TrieNode.dynamicChild, TrieNode.catchAllChild, alookup,
              heq] at hsome

/-- Values surviving aset satisfy a predicate when the old values and the
new value do. -/
theorem aset_values {α : Type} (l : List (String × α)) (k : String) (v : α)
    (P : α → Prop) (hl : ∀ p ∈ l, P p.2) (hv : P v) :
    ∀ p ∈ aset l k v, P p.2 := by
  intro p hp
  rcases aset_mem l k v p hp with hp | hp
  · rw [hp]
    exact hv
  · exact hl p hp

/-- Values surviving aerase satisfy a predicate when the old values do. -/
theorem aerase_values {α : Type} (l : List (String × α)) (k : String)
    (P : α → Prop) (hl : ∀ p ∈ l, P p.2) :
    ∀ p ∈ aerase l k, P p.2 :=
  fun p hp => hl p (aerase_mem l k p hp)

/-- Joining a non-empty head with slashes yields a non-empty string. -/
theorem joinWith_slash_ne_empty (s : String) (rest : List String)
    (hs : s ≠ "") : joinWith ("/") (s :: rest) ≠ "" := by
  cases rest with
  | nil => simpa [joinWith] using hs
  | cons r rs =>
    simp only [joinWith]
    intro hcontra
    have hd := congrArg String.data hcontra
    rw [string_data_append, string_data_append] at hd
    rw [List.append_assoc] at hd
    rcases List.append_eq_nil.mp hd with ⟨hs1, _⟩
    exact hs (String.ext hs1)

/-- Every parameter value produced by the matcher is non-empty when the
input segments and the initial bindings are: dynamic segments bind whole
non-empty segments and the catch-all binds a non-empty join. -/
theorem matchSegments_params :
    ∀ (segs : List String) (node : TrieNode) (params : Params),
      (∀ s ∈ segs, s ≠ "") →
      (∀ kv ∈ params, kv.2 ≠ "") →
      ∀ kv ∈ (matchSegments node segs params).2, kv.2 ≠ "" := by
  intro segs
  induction segs with
  | nil =>
    intro node params _hseg hp
    simpa [matchSegments] using hp
  | cons seg rest ih =>
    intro node params hseg hp
    obtain ⟨sc, dy, ca, en⟩ := node
    have hseg0 : seg ≠ "" := hseg seg (by simp)
    have hrest : ∀ s ∈ rest, s ≠ "" := fun s hs => hseg s (by simp [hs])
    have hjoin : joinWith ("/") (seg :: rest) ≠ "" :=
      joinWith_slash_ne_empty seg rest hseg0
    cases hlk : alookup sc seg with
    | some child =>
      cases hmc : matchSegments child rest params with
      | mk r1 q1 =>
        have hq1 : ∀ kv ∈ q1, kv.2 ≠ "" := by
          have := ih child params hrest hp
          rw [hmc] at this
          exact this
        cases r1 with
        | some e1 =>
          simp only [matchSegments, TrieNode.staticChildren,
            TrieNode.dynamicChild, TrieNode.catchAllChild, hlk, hmc]
          exact hq1
        | none =>
          cases hdy : dy with
          | some pd =>
            obtain ⟨pn0, dn0⟩ := pd
            have hbind : ∀ kv ∈ aset q1 pn0 seg, kv.2 ≠ "" :=
              aset_values q1 pn0 seg (fun v => v ≠ "") hq1 hseg0
            cases hmd : matchSegments dn0 rest (aset q1 pn0 seg) with
            | mk r2 q2 =>
              have hq2 : ∀ kv ∈ q2, kv.2 ≠ "" := by
                have := ih dn0 (aset q1 pn0 seg) hrest hbind
                rw [hmd] at this
                exact this
              cases r2 with
              | some e2 =>
                simp only [matchSegments, TrieNode.staticChildren,
                  TrieNode.dynamicChild, TrieNode.catchAllChild, hlk, hmc,
                  hdy, hmd]
                exact hq2
              | none =>
                have herase : ∀ kv ∈ aerase q2 pn0, kv.2 ≠ "" :=
                  aerase_values q2 pn0 (fun v => v ≠ "") hq2
                cases hca : ca with
                | some pc =>
                  simp only [matchSegments, TrieNode.staticChildren,
                    TrieNode.dynamicChild, TrieNode.catchAllChild, hlk, hmc,
                    hdy, hmd, hca]
                  exact aset_values (aerase q2 pn0) pc.1
                    (joinWith ("/") (seg :: rest)) (fun v => v ≠ "")
                    herase hjoin
                | none =>
                  simp only [matchSegments, TrieNode.staticChildren,
                    TrieNode.dynamicChild, TrieNode.catchAllChild, hlk, hmc,
                    hdy, hmd, hca]
                  exact herase
          | none =>
            cases hca : ca with
            | some pc =>
              simp only [matchSegments, TrieNode.staticChildren,
                TrieNode.dynamicChild, TrieNode.catchAllChild, hlk, hmc,
                hdy, hca]
              exact aset_values q1 pc.1 (joinWith ("/") (seg :: rest))
                (fun v => v ≠ "") hq1 hjoin
            | none =>
              simp only [matchSegments, TrieNode.staticChildren,
                TrieNode.dynamicChild, TrieNode.catchAllChild, hlk, hmc,
                hdy, hca]
              exact hq1
    | none =>
      cases hdy : dy with
      | some pd =>
        obtain ⟨pn0, dn0⟩ := pd
        have hbind : ∀ kv ∈ aset params pn0 seg, kv.2 ≠ "" :=
          aset_values params pn0 seg (fun v => v ≠ "") hp hseg0
        cases hmd : matchSegments dn0 rest (aset params pn0 seg) with
        | mk r2 q2 =>
          have hq2 : ∀ kv ∈ q2, kv.2 ≠ "" := by
            have := ih dn0 (aset params pn0 seg) hrest hbind
            rw [hmd] at this
            exact this
          cases r2 with
          | some e2 =>
            simp only [matchSegments, TrieNode.staticChildren,
              TrieNode.dynamicChild, TrieNode.catchAllChild, hlk, hdy, hmd]
            exact hq2
          | none =>
            have herase : ∀ kv ∈ aerase q2 pn0, kv.2 ≠ "" :=
              aerase_values q2 pn0 (fun v => v ≠ "") hq2
            cases hca : ca with
            | some pc =>
              simp only [matchSegments, TrieNode.staticChildren,
                TrieNode.dynamicChild, TrieNode.catchAllChild, hlk, hdy,
                hmd, hca]
              exact aset_values (aerase q2 pn0) pc.1
                (joinWith ("/") (seg :: rest)) (fun v => v ≠ "") herase hjoin
            | none =>
              simp only [matchSegments, TrieNode.staticChildren,
                TrieNode.dynamicChild, TrieNode.catchAllChild, hlk, hdy,
                hmd, hca]
              exact herase
      | none =>
        cases hca : ca with
        | some pc =>
          simp only [matchSegments, TrieNode.staticChildren,
            TrieNode.dynamicChild, TrieNode.catchAllChild, hlk, hdy, hca]
          exact aset_values params pc.1 (joinWith ("/") (seg :: rest))
            (fun v => v ≠ "") hp hjoin
        | none =>
          simp only [matchSegments, TrieNode.staticChildren,
            TrieNode.dynamicChild, TrieNode.catchAllChild, hlk, hdy, hca]
          exact hp

/-- Claim C10: inserting a catch-all pattern marks no node terminal; a
matcher whose only route is a catch-all returns null for the base path
(and any shorter path) because the catch-all branch is consulted only
when at least one segment remains; and every parameter value of a
successful match — in particular a matched catch-all parameter — is
non-empty. -/
theorem c10_catchall_base_path (e : ManifestRouteEntry) (path : String)
    (routes : List ManifestRouteEntry) (r : ManifestRouteEntry) (ps : Params) :
    (hasCatchAllSeg e.pattern = true → NoEntry (buildMatcher [e])) ∧
    (hasCatchAllSeg e.pattern = true →
      (splitSegments path).length ≤
        ((splitSegments e.pattern).takeWhile
          (fun s => !(startsWithChar s '*'))).length →
      matcherMatch [e] path = none) ∧
    (matcherMatch routes path = some (r, ps) → ∀ kv ∈ ps, kv.2 ≠ "") := by
  have hbuild : buildMatcher [e] =
      insertSegments createTrieNode (splitSegments e.pattern) e := by
    simp [buildMatcher]
  have hany : hasCatchAllSeg e.pattern = true →
      (splitSegments e.pattern).any (fun s => startsWithChar s '*') = true := by
    intro h
    unfold hasCatchAllSeg at h
    exact h
  refine ⟨?_, ?_, ?_⟩
  · intro hca
    rw [hbuild]
    exact insertSegments_noEntry (splitSegments e.pattern) createTrieNode e
      createTrieNode_noEntry (hany hca)
  · intro hca hle
    unfold matcherMatch
    cases hres : matchSegments (buildMatcher [e]) (splitSegments path) [] with
    | mk rr q =>
      cases rr with
      | some e1 =>
        exfalso
        have hlen := singleCatchAll_match_length (splitSegments e.pattern) e
          (splitSegments path) [] (hany hca)
          (by rw [← hbuild, hres]; rfl)
        omega
      | none => rfl
  · intro hm kv hkv
    unfold matcherMatch at hm
    cases hres : matchSegments (buildMatcher routes) (splitSegments path) [] with
    | mk rr q =>
      rw [hres] at hm
      cases rr with
      | some e1 =>
        have hsome : (some (e1, q) : Option (ManifestRouteEntry × Params)) =
            some (r, ps) := hm
        have hq : q = ps := congrArg Prod.snd (Option.some.inj hsome)
        have hall := matchSegments_params (splitSegments path)
          (buildMatcher routes) [] (splitSegments_mem_ne_empty path)
          (by intro kv2 h2; simp at h2)
        rw [hres] at hall
        subst hq
        exact hall kv hkv
      | none => cases hm

/-- Claim C10 witness: a matcher holding only the docs catch-all returns
null for the docs base path, while the deeper path binds the catch-all
parameter to the non-empty remainder. -/
theorem c10_catchall_base_path_witness :
    matcherMatch [docsAllEntry] ("/docs") = none ∧
    (∀ kv ∈ [(("path" : String), ("a/b" : String))], kv.2 ≠ ("" : String)) :=
  ⟨(c10_catchall_base_path docsAllEntry ("/docs") [] docsAllEntry []).2.1
      (by decide) (by decide),
   (c10_catchall_base_path docsAllEntry ("/docs/a/b") [docsAllEntry]
      docsAllEntry [(("path" : String), ("a/b" : String))]).2.2 (by decide)⟩

-- ─── C4: Cache-Control header derivation ─────────────────────────────────────

/-- Claim C4 counterexample: a cache config with none of the three fields
present yields the literal no-cache, not a header led by public, so the
claim's description of the header for every cache config fails at the
empty config. -/
theorem c4_counterexample :
    buildCacheControlHeader (some {}) = "no-cache" ∧
    buildCacheControlHeader (some {}) ≠
      joinWith (", ") ("public" :: cacheDirectives {}) := by
  constructor
  · rfl
  · decide

/-- Claim C4 (amended): the header for a cache config with at least one field
present is public followed by exactly the directives for the fields
present, in max-age, s-maxage, stale-while-revalidate order, joined by
comma-space; an absent cache config — or one with none of the fields —
yields the literal no-cache.  The concrete scenario config produces
exactly the spec's example header. -/
theorem c4_cache_control_header :
    buildCacheControlHeader none = "no-cache" ∧
    (∀ c : CacheConfig,
      buildCacheControlHeader (some c) =
        if cacheDirectives c = [] then "no-cache"
        else joinWith (", ") ("public" :: cacheDirectives c)) ∧
    buildCacheControlHeader
      (some { maxAge := some 3600, sMaxAge := some 7200,
              staleWhileRevalidate := some 300 }) =
      "public, max-age=3600, s-maxage=7200, stale-while-revalidate=300" := by
  refine ⟨rfl, ?_, by decide⟩
  intro c
  obtain ⟨ma, sa, sw⟩ := c
  cases ma <;> cases sa <;> cases sw <;>
    simp [buildCacheControlHeader, cacheDirectives, joinWith]

-- ─── C9: build report size formatting ────────────────────────────────────────

/-- Claim C9: formatSize maps 0 bytes to a dash, a count below 1024 to the
raw byte count, and a count of at least 1024 to kilobytes with one decimal
place — the printed tenths value n is bytes/1024 rounded to one decimal
(characterized by 512n ≤ 5·bytes + 256 < 512(n+1), rounding half up). -/
theorem c9_format_size (b : Nat) :
    formatSize 0 = "-" ∧
    (0 < b → b < 1024 → formatSize b = toString b ++ " B") ∧
    (1024 ≤ b → ∃ n : Nat,
      512 * n ≤ 5 * b + 256 ∧ 5 * b + 256 < 512 * (n + 1) ∧
      formatSize b = toString (n / 10) ++ "." ++ toString (n % 10) ++ " KB") := by
  refine ⟨rfl, ?_, ?_⟩
  · intro h1 h2
    have hb0 : ¬ b = 0 := by omega
    simp [formatSize, hb0, h2]
  · intro h
    refine ⟨(20 * b + 1024) / 2048, by omega, by omega, ?_⟩
    have hb0 : ¬ b = 0 := by omega
    have hb1 : ¬ b < 1024 := by omega
    simp [formatSize, toFixed1KB, hb0, hb1]

/-- Claim C9 witness: concrete evaluations through the theorem at 500 and
1587 bytes. -/
theorem c9_format_size_witness :
    formatSize 500 = toString 500 ++ " B" ∧
    (∃ n : Nat, 512 * n ≤ 5 * 1587 + 256 ∧ 5 * 1587 + 256 < 512 * (n + 1) ∧
      formatSize 1587 = toString (n / 10) ++ "." ++ toString (n % 10) ++ " KB") :=
  ⟨(c9_format_size 500).2.1 (by decide) (by decide),
   (c9_format_size 1587).2.2 (by decide)⟩

-- ─── C5 / C6: API method recording and dispatch ──────────────────────────────

/-- The runtime's allowedMethods (entry.methods or the empty list) coincides
with the build's filtered method list when the entry was assembled from
the same exports: recordedApiMethods drops the field exactly when the
filtered list is empty. -/
theorem recordedApiMethods_getD (exports : List String) :
    (recordedApiMethods exports).getD [] = detectApiMethods exports := by
  unfold recordedApiMethods
  by_cases h : (detectApiMethods exports).length > 0
  · simp [h]
  · have : detectApiMethods exports = [] := by
      cases he : detectApiMethods exports with
      | nil => rfl
      | cons a t => rw [he] at h; simp at h
    simp [this]

/-- Claim C5: with the entry's methods recorded by the build from the
module's export names (exactly the exports in the recognized set), a
request whose upper-cased method is not recorded gets a 405 whose Allow
header lists exactly the recorded methods, and a request for a recorded
method exported as a function is dispatched to that handler. -/
theorem c5_api_method_dispatch (mod : ApiModule) (entry : ManifestRouteEntry)
    (sp : String) (req : ApiRequest) :
    entry.methods = recordedApiMethods (mod.map Prod.fst) →
    entry.serverEntry = some sp →
    (((detectApiMethods (mod.map Prod.fst)).contains
        (toUpperCase (req.method.getD ("GET"))) = false →
      (handleApiRouteInner entry mod req).status = 405 ∧
      headerValue (handleApiRouteInner entry mod req) ("Allow") =
        some (joinWith (", ") (detectApiMethods (mod.map Prod.fst)))) ∧
     (∀ h : ApiRequest → ApiResponse,
      (detectApiMethods (mod.map Prod.fst)).contains
        (toUpperCase (req.method.getD ("GET"))) = true →
      alookup mod (toUpperCase (req.method.getD ("GET"))) = some (.handler h) →
      handleApiRouteInner entry mod req = h req)) := by
  intro hm hs
  have hall : entry.methods.getD [] = detectApiMethods (mod.map Prod.fst) := by
    rw [hm, recordedApiMethods_getD]
  constructor
  · intro hc
    have hA : handleApiRouteInner entry mod req =
        { status := 405,
          headers := [("Content-Type", "application/json"),
            ("Allow", joinWith (", ") (detectApiMethods (mod.map Prod.fst)))],
          body := "Method " ++ toUpperCase (req.method.getD ("GET")) ++
            " not allowed" } := by
      unfold handleApiRouteInner
      simp only [hall, hc, Bool.not_false, if_true]
    rw [hA]
    exact ⟨rfl, by simp [headerValue, alookup]⟩
  · intro h hc hl
    unfold handleApiRouteInner
    simp only [hall, hc, Bool.not_true, hs, hl]
    rfl

/-- Claim C5 witness: for a module exporting GET and a helper, a PUT request
gets 405 with Allow GET, and a GET request is dispatched to the handler. -/
theorem c5_api_method_dispatch_witness :
    ((handleApiRouteInner getOnlyEntry getOnlyModule
        { method := some ("PUT") }).status = 405 ∧
      headerValue (handleApiRouteInner getOnlyEntry getOnlyModule
        { method := some ("PUT") }) ("Allow") =
        some (joinWith (", ") (detectApiMethods (getOnlyModule.map Prod.fst)))) ∧
    handleApiRouteInner getOnlyEntry getOnlyModule { method := some ("GET") } =
      okHandler { method := some ("GET") } :=
  ⟨(c5_api_method_dispatch getOnlyModule getOnlyEntry ("api__items.js")
      { method := some ("PUT") } rfl rfl).1 (by decide),
   (c5_api_method_dispatch getOnlyModule getOnlyEntry ("api__items.js")
      { method := some ("GET") } rfl rfl).2 okHandler (by decide) rfl⟩

/-- Claim C6 counterexample: an API route whose module exports no recognized
method answers every request with 405 (empty Allow list), not with the
500 the claim asserts. -/
theorem c6_counterexample :
    (handleApiRouteInner noMethodEntry noMethodModule
      { method := some ("GET") }).status = 405 ∧
    (handleApiRouteInner noMethodEntry noMethodModule
      { method := some ("GET") }).status ≠ 500 := by
  constructor
  · rfl
  · decide

/-- Claim C6 (amended): an API route whose compiled bundle exports no
recognized HTTP-method handler is still listed in the manifest produced
by the build (the build neither fails nor validates that a method
exists); a request to such a route at runtime yields a 405 response (its
recorded-methods list is empty, so no method is ever allowed), not a
build failure. -/
theorem c6_no_method_route (apiRoutes : List RouteNode) (r : RouteNode)
    (serverOutputMap : List (String × String))
    (apiMethodsMap : List (String × List String)) (mod : ApiModule)
    (req : ApiRequest) :
    r ∈ apiRoutes →
    alookup apiMethodsMap r.id = none →
    (∃ e : ManifestRouteEntry,
      (r.id, e) ∈ assembleApiRoutes apiRoutes serverOutputMap apiMethodsMap ∧
      e.methods = none ∧
      (handleApiRouteInner e mod req).status = 405) := by
  intro hr hm
  refine ⟨{ id := r.id, pattern := r.pattern, rtype := .api,
            serverEntry := alookup serverOutputMap r.id,
            methods := alookup apiMethodsMap r.id,
            middleware := if r.middlewarePaths.length ≠ 0
              then some r.middlewarePaths else none }, ?_, ?_, ?_⟩
  · unfold assembleApiRoutes
    exact List.mem_map.mpr ⟨r, hr, rfl⟩
  · exact hm
  · unfold handleApiRouteInner
    rw [hm]
    rfl

/-- Claim C6 witness: the concrete no-method route is listed and answers 405. -/
theorem c6_no_method_route_witness :
    ∃ e : ManifestRouteEntry,
      ("/api/empty", e) ∈ assembleApiRoutes [noMethodRoute]
        [("/api/empty", "api__empty.js")] [] ∧
      e.methods = none ∧
      (handleApiRouteInner e noMethodModule { method := some ("GET") }).status = 405 :=
  c6_no_method_route [noMethodRoute] noMethodRoute
    [("/api/empty", "api__empty.js")] [] noMethodModule
    { method := some ("GET") } (by decide) rfl

-- ─── C7 / C8: the prerender pass ─────────────────────────────────────────────

/-- The skip test only reads the entry's hasLoad flag. -/
theorem pageSkipped_congr (e1 e2 : ManifestRouteEntry) (mod : PageModule)
    (h : e1.hasLoad = e2.hasLoad) :
    ∀ q : Params, pageSkipped e1 mod q = pageSkipped e2 mod q := by
  intro q
  unfold pageSkipped
  rw [h]

/-- Structure of the prerender loop: only prerenderedFile is touched on the
entry; the written paths are exactly the output paths of the non-skipped
parameter sets, in order; renderedCount advances by the number of pages
written. -/
theorem prerenderLoop_spec (fullLen : Nat) (mod : PageModule) :
    ∀ (l : List Params) (e : ManifestRouteEntry) (w : List String) (c : Nat),
      (prerenderLoop fullLen mod (e, w, c) l).1.pattern = e.pattern ∧
      (prerenderLoop fullLen mod (e, w, c) l).1.hasLoad = e.hasLoad ∧
      (prerenderLoop fullLen mod (e, w, c) l).1.prerendered = e.prerendered ∧
      (prerenderLoop fullLen mod (e, w, c) l).1.prerenderedCount =
        e.prerenderedCount ∧
      (prerenderLoop fullLen mod (e, w, c) l).2.1 =
        w ++ (l.filter (fun p => !pageSkipped e mod p)).map
          (fun p => htmlRelPathFor (substituteParams e.pattern p)) ∧
      (prerenderLoop fullLen mod (e, w, c) l).2.2 =
        c + (l.filter (fun p => !pageSkipped e mod p)).length := by
  intro l
  induction l with
  | nil =>
    intro e w c
    simp [prerenderLoop]
  | cons p t ih =>
    intro e w c
    by_cases hskip : pageSkipped e mod p = true
    · simpa [prerenderLoop, hskip] using ih e w c
    · have hskip' : pageSkipped e mod p = false := by
        cases hq : pageSkipped e mod p
        · rfl
        · exact absurd hq hskip
      have hstep : prerenderLoop fullLen mod (e, w, c) (p :: t) = prerenderLoop fullLen mod ((if fullLen = 1 then { e with prerenderedFile := some (htmlRelPathFor (substituteParams e.pattern p)) } else e), w ++ [htmlRelPathFor (substituteParams e.pattern p)], c + 1) t := by
        simp [prerenderLoop, hskip']
      have hpat : (if fullLen = 1 then { e with prerenderedFile := some (htmlRelPathFor (substituteParams e.pattern p)) } else e).pattern = e.pattern := by
        split <;> rfl
      have hhl : (if fullLen = 1 then { e with prerenderedFile := some (htmlRelPathFor (substituteParams e.pattern p)) } else e).hasLoad = e.hasLoad := by
        split <;> rfl
      have hpre : (if fullLen = 1 then { e with prerenderedFile := some (htmlRelPathFor (substituteParams e.pattern p)) } else e).prerendered = e.prerendered := by
        split <;> rfl
      have hcnt : (if fullLen = 1 then { e with prerenderedFile := some (htmlRelPathFor (substituteParams e.pattern p)) } else e).prerenderedCount = e.prerenderedCount := by
        split <;> rfl
      obtain ⟨h1, h2, h3, h4, h5, h6⟩ := ih (if fullLen = 1 then { e with prerenderedFile := some (htmlRelPathFor (substituteParams e.pattern p)) } else e) (w ++ [htmlRelPathFor (substituteParams e.pattern p)]) (c + 1)
      have hcong := pageSkipped_congr (if fullLen = 1 then { e with prerenderedFile := some (htmlRelPathFor (substituteParams e.pattern p)) } else e) e mod hhl
      refine ⟨?_, ?_, ?_, ?_, ?_, ?_⟩
      · rw [hstep, h1, hpat]
      · rw [hstep, h2, hhl]
      · rw [hstep, h3, hpre]
      · rw [hstep, h4, hcnt]
      · rw [hstep, h5]
        simp only [hcong, hpat]
        simp [hskip', List.filter_cons]
      · rw [hstep, h6]
        simp only [hcong]
        simp [hskip', List.filter_cons]
        omega

/-- Claim C7 counterexample: a route with a prerender export whose module
has no default export is left without prerendered: true (the whole route
is skipped), so the claim's universal statement fails. -/
theorem c7_counterexample :
    (prerenderRoute postsEntry noDefaultModule
      (.withPaths [[("slug", "a")]])).1.prerendered = false ∧
    (false : Bool) ≠ true := by
  constructor
  · rfl
  · decide

/-- Claim C7 (amended): for every route with a prerender export whose module
has a default export, the prerender pass sets prerendered: true; the
written pages are exactly the non-skipped parameter sets (a load()
returning a Response skips only that one page), each written at
index.html for the root URL and url-without-leading-slash/index.html
otherwise; a multi-page prerender records prerenderedCount equal to
exactly the number of successfully rendered pages; a single-page
prerender records prerenderedFile with the written HTML path. -/
theorem c7_prerender_manifest_update (entry : ManifestRouteEntry)
    (mod : PageModule) (config : PrerenderConfig) :
    mod.hasDefault = true →
    ((prerenderRoute entry mod config).1.prerendered = true ∧
     (prerenderRoute entry mod config).2 =
       ((paramSetsOf config).filter (fun p => !pageSkipped entry mod p)).map
         (fun p =>
           if substituteParams entry.pattern p = "/" then "index.html"
           else dropFirstChar (substituteParams entry.pattern p) ++ "/index.html") ∧
     ((paramSetsOf config).length > 1 →
       (prerenderRoute entry mod config).1.prerenderedCount =
         some (prerenderRoute entry mod config).2.length) ∧
     (∀ p : Params, paramSetsOf config = [p] →
       pageSkipped entry mod p = false →
       (prerenderRoute entry mod config).1.prerenderedFile =
         some (if substituteParams entry.pattern p = "/" then "index.html"
               else dropFirstChar (substituteParams entry.pattern p) ++ "/index.html"))) := by
  intro hd
  obtain ⟨h1, h2, h3, h4, h5, h6⟩ :=
    prerenderLoop_spec (paramSetsOf config).length mod (paramSetsOf config)
      entry [] 0
  refine ⟨?_, ?_, ?_, ?_⟩
  · unfold prerenderRoute
    simp only [hd, Bool.not_true]
    by_cases hgt : (paramSetsOf config).length > 1 <;> simp [hgt]
  · unfold prerenderRoute
    simp only [hd, Bool.not_true]
    by_cases hgt : (paramSetsOf config).length > 1 <;>
      simp [hgt, h5, htmlRelPathFor]
  · intro hgt
    unfold prerenderRoute
    simp only [hd, Bool.not_true]
    simp only [if_neg (by decide : ¬ (false = true))]
    simp [hgt, h5, h6]
  · intro p hps hsk
    unfold prerenderRoute
    rw [hps] at h5 h6 ⊢
    simp [hd, prerenderLoop, hsk, htmlRelPathFor]

/-- Claim C7 witness: the three-slug prerender of postsEntry (where the slug
b loads a redirect Response) and the single-page prerender of the root
route, through the theorem. -/
theorem c7_prerender_manifest_update_witness :
    (prerenderRoute postsEntry postsModule postsPrerender).1.prerendered = true ∧
    ((paramSetsOf postsPrerender).length > 1 →
      (prerenderRoute postsEntry postsModule postsPrerender).1.prerenderedCount =
        some (prerenderRoute postsEntry postsModule postsPrerender).2.length) ∧
    (pageSkipped homeEntry homeModule [] = false →
      (prerenderRoute homeEntry homeModule .simple).1.prerenderedFile =
        some (if substituteParams homeEntry.pattern [] = "/" then "index.html"
              else dropFirstChar (substituteParams homeEntry.pattern []) ++
                "/index.html")) :=
  ⟨(c7_prerender_manifest_update postsEntry postsModule postsPrerender rfl).1,
   (c7_prerender_manifest_update postsEntry postsModule postsPrerender rfl).2.2.1,
   (c7_prerender_manifest_update homeEntry homeModule .simple rfl).2.2.2 [] rfl⟩

/-- Claim C8: a page slated for prerendering whose module has no default
export is skipped (its entry is untouched and nothing is written) while
every other route of the pass is prerendered exactly as it would be on
its own; the pass is total — one result per route — so the build still
writes a manifest and completes. -/
theorem c8_prerender_skip_non_fatal
    (pre post : List (ManifestRouteEntry × PageModule × PrerenderConfig))
    (r : ManifestRouteEntry × PageModule × PrerenderConfig) :
    prerenderPass (pre ++ r :: post) =
      prerenderPass pre ++ prerenderRoute r.1 r.2.1 r.2.2 :: prerenderPass post ∧
    (∀ rs : List (ManifestRouteEntry × PageModule × PrerenderConfig),
      (prerenderPass rs).length = rs.length) ∧
    (r.2.1.hasDefault = false → prerenderRoute r.1 r.2.1 r.2.2 = (r.1, [])) := by
  refine ⟨?_, ?_, ?_⟩
  · simp [prerenderPass]
  · intro rs
    simp [prerenderPass]
  · intro hd
    unfold prerenderRoute
    simp [hd]

/-- Claim C8 witness: a concrete pass over a skipped no-default route. -/
theorem c8_prerender_skip_non_fatal_witness :
    prerenderPass [(postsEntry, noDefaultModule, PrerenderConfig.simple)] =
      prerenderPass [] ++ prerenderRoute postsEntry noDefaultModule .simple ::
        prerenderPass [] ∧
    prerenderRoute postsEntry noDefaultModule .simple = (postsEntry, []) :=
  ⟨(c8_prerender_skip_non_fatal [] []
      (postsEntry, noDefaultModule, .simple)).1,
   (c8_prerender_skip_non_fatal [] []
      (postsEntry, noDefaultModule, .simple)).2.2 rfl⟩

end Pyra
